import Mathlib

/-!
# MathBot `AIAssistant` (src/testing.js): intent classifier and conversation store

A shallow embedding of the `AIAssistant` class:

* JavaScript strings are lists of characters (`Str`). A character outside the Basic
  Multilingual Plane is two code units in JavaScript; it is neither white space, nor a
  digit, nor an ASCII character, so no test below tells it from one character.
* Regular-expression literals are values of `Regex`, run by `matchFrom`, a
  list-of-successes matcher; `Regex.test` is `RegExp.prototype.test`.
* The user collection is a finite map from user ids to records, passed explicitly.
-/

namespace MathBot

/-! ## Strings -/

/-- A JavaScript string, as the list of its characters. -/
abbrev Str := List Char

/-- The characters matched by `\s` and removed by `String.prototype.trim`:
ECMAScript WhiteSpace and LineTerminator. -/
def isJsSpace (c : Char) : Bool :=
  let n := c.toNat
  n == 0x09 || n == 0x0A || n == 0x0B || n == 0x0C || n == 0x0D || n == 0x20 ||
  n == 0xA0 || n == 0x1680 || (0x2000 ≤ n && n ≤ 0x200A) || n == 0x2028 ||
  n == 0x2029 || n == 0x202F || n == 0x205F || n == 0x3000 || n == 0xFEFF

/-- The characters matched by `\d` and by `[0-9]`. -/
def isDigit (c : Char) : Bool := 48 ≤ c.toNat && c.toNat ≤ 57

/-- A character range `[lo-hi]` of a character class. -/
def inRange (lo hi : Char) (c : Char) : Bool := lo.toNat ≤ c.toNat && c.toNat ≤ hi.toNat

/-- The ASCII letter `c` with its case swapped; other characters are unchanged. -/
def swapCase (c : Char) : Char :=
  if 97 ≤ c.toNat ∧ c.toNat ≤ 122 then Char.ofNat (c.toNat - 32)
  else if 65 ≤ c.toNat ∧ c.toNat ≤ 90 then Char.ofNat (c.toNat + 32)
  else c

/-- A pattern character under the `i` flag (without the `u` flag): the canonicalisation of
ECMAScript never identifies a non-ASCII character with an ASCII one, so a pattern letter
matches exactly itself and its other ASCII case. -/
def ciChar (p : Char) (c : Char) : Bool := c == p || c == swapCase p

/-- JavaScript `String.prototype.trim`. -/
def trim (s : Str) : Str := ((s.dropWhile isJsSpace).reverse.dropWhile isJsSpace).reverse

/-- The lower-case expansion of one character by `String.prototype.toLowerCase`.
ASCII capitals map to their small letters; U+0130 maps to `i` followed by U+0307 and
U+212A (Kelvin sign) maps to `k`. Every other character outside ASCII lower-cases to
characters outside ASCII and is kept as it is: the result is only ever searched for
ASCII keywords, which cannot tell the difference. -/
def lowerChar (c : Char) : List Char :=
  if 65 ≤ c.toNat ∧ c.toNat ≤ 90 then [Char.ofNat (c.toNat + 32)]
  else if c.toNat = 0x130 then ['i', Char.ofNat 0x307]
  else if c.toNat = 0x212A then ['k']
  else [c]

/-- JavaScript `String.prototype.toLowerCase`. -/
def toLowerCase (s : Str) : Str := s.flatMap lowerChar

/-- JavaScript `String.prototype.includes`: `kw` occurs in `s` as a contiguous substring. -/
def includes (s kw : Str) : Bool := s.tails.any (fun t => kw.isPrefixOf t)

/-- The pieces of `s` cut at every maximal run of characters satisfying `sep`; `cur` is the
piece being read, reversed, and `inSep` tells that the previous character was a separator. -/
def splitRuns (sep : Char → Bool) : Str → Str → Bool → List Str
  | [], cur, _ => [cur.reverse]
  | c :: cs, cur, inSep =>
    if sep c then
      if inSep then splitRuns sep cs cur true
      else cur.reverse :: splitRuns sep cs [] true
    else splitRuns sep cs (c :: cur) false

/-- JavaScript `s.split(/\s+/)`: every maximal run of white space is one separator; a
separator at the start or at the end of `s` leaves an empty piece there, and the empty string
gives `[""]`. -/
def splitWhitespace (s : Str) : List Str := splitRuns isJsSpace s [] false

/-! ## Regular expressions -/

/-- The fragment of ECMAScript regular expressions used by the patterns of the class.
Quantifiers occur in them on single characters and classes only. -/
inductive Regex where
  /-- A character or character class, given by its membership test. -/
  | chr (p : Char → Bool)
  /-- Concatenation. -/
  | seq (a b : Regex)
  /-- Alternation `a|b`. -/
  | alt (a b : Regex)
  /-- The quantifier `?` on a class. -/
  | opt (p : Char → Bool)
  /-- The quantifier `*` on a class. -/
  | star (p : Char → Bool)
  /-- The quantifier `+` on a class. -/
  | plus (p : Char → Bool)
  /-- The assertion `^` (no `m` flag): start of input. -/
  | bos
  /-- The assertion `$` (no `m` flag): end of input. -/
  | eos

/-- The ends of the matches of `p*` at `s`, greedy first. -/
def starEnds (p : Char → Bool) : Str → List Str
  | [] => [[]]
  | c :: cs => if p c then starEnds p cs ++ [c :: cs] else [c :: cs]

/-- All ends of the matches of `r` that start at the suffix `s` of an input of length `n`,
in the order in which a backtracking matcher tries them. A position is the suffix of the
input that is still to be read. -/
def matchFrom (n : Nat) : Regex → Str → List Str
  | .chr p, s =>
    match s with
    | [] => []
    | c :: cs => if p c then [cs] else []
  | .seq a b, s => (matchFrom n a s).flatMap (matchFrom n b)
  | .alt a b, s => matchFrom n a s ++ matchFrom n b s
  | .opt p, s =>
    match s with
    | [] => [[]]
    | c :: cs => if p c then [cs, c :: cs] else [c :: cs]
  | .star p, s => starEnds p s
  | .plus p, s =>
    match s with
    | [] => []
    | c :: cs => if p c then starEnds p cs else []
  | .bos, s => if s.length = n then [s] else []
  | .eos, s => if s = [] then [s] else []

/-- JavaScript `RegExp.prototype.test` (no `g` or `y` flag): a match starts at some position. -/
def Regex.test (r : Regex) (s : Str) : Bool :=
  s.tails.any (fun t => !(matchFrom s.length r t).isEmpty)

/-- A literal character of a pattern. -/
def lit (c : Char) : Regex := .chr (fun d => d == c)

/-- A literal character of a pattern with the `i` flag. -/
def litI (c : Char) : Regex := .chr (ciChar c)

/-- A literal word of a pattern with the `i` flag. -/
def wordI : Str → Regex
  | [] => .opt (fun _ => false)
  | c :: cs => .seq (litI c) (wordI cs)

/-- The class `[\+\-\*\/\^]`. -/
def isMathOp (c : Char) : Bool := c == '+' || c == '-' || c == '*' || c == '/' || c == '^'

/-- The class `[\+\-\*\/]`; with the `i` flag it has no letters to fold. -/
def isFnOp (c : Char) : Bool := c == '+' || c == '-' || c == '*' || c == '/'

/-! ## The intent classifier -/

/-- The pattern `/[\+\-\*\/\^]/` (basic operators). -/
def operatorPattern : Regex := .chr isMathOp

/-- The pattern `/(sin|cos|tan|log|ln|sqrt|exp|abs)/i` (functions). -/
def functionNamePattern : Regex :=
  .alt (wordI "sin".toList) (.alt (wordI "cos".toList) (.alt (wordI "tan".toList)
    (.alt (wordI "log".toList) (.alt (wordI "ln".toList) (.alt (wordI "sqrt".toList)
    (.alt (wordI "exp".toList) (wordI "abs".toList)))))))

/-- The pattern `/\d+\.\d+/` (decimals). -/
def decimalPattern : Regex := .seq (.plus isDigit) (.seq (lit '.') (.plus isDigit))

/-- The pattern `/\(\d+\)/` (numbers in parentheses). -/
def parenNumberPattern : Regex := .seq (lit '(') (.seq (.plus isDigit) (lit ')'))

/-- The list `mathPatterns` of `isMathExpression`. -/
def mathPatterns : List Regex :=
  [operatorPattern, functionNamePattern, decimalPattern, parenNumberPattern]

/-- Method `isMathExpression(text)`. -/
def isMathExpression (text : Str) : Bool := mathPatterns.any (fun pattern => pattern.test text)

/-- The pattern `/f\(x\)\s*=/i`. -/
def fxEqPattern : Regex :=
  .seq (litI 'f') (.seq (litI '(') (.seq (litI 'x') (.seq (litI ')')
    (.seq (.star isJsSpace) (litI '=')))))

/-- The pattern `/y\s*=/i`. -/
def yEqPattern : Regex := .seq (litI 'y') (.seq (.star isJsSpace) (litI '='))

/-- The pattern `/x\^?\d+/i` (x with power). -/
def xPowerPattern : Regex := .seq (litI 'x') (.seq (.opt (ciChar '^')) (.plus isDigit))

/-- The pattern `/x[\+\-\*\/]/i` (x with operators). -/
def xOperatorPattern : Regex := .seq (litI 'x') (.chr isFnOp)

/-- The list `functionPatterns` of `isFunctionExpression`. -/
def functionPatterns : List Regex := [fxEqPattern, yEqPattern, xPowerPattern, xOperatorPattern]

/-- Method `isFunctionExpression(text)`. -/
def isFunctionExpression (text : Str) : Bool :=
  functionPatterns.any (fun pattern => pattern.test text)

/-- The pattern `/^([01]?[0-9]|2[0-3]):[0-5][0-9]$/` of `isAlarmTime`. -/
def timePattern : Regex :=
  .seq .bos
    (.seq (.alt (.seq (.opt (inRange '0' '1')) (.chr (inRange '0' '9')))
                (.seq (lit '2') (.chr (inRange '0' '3'))))
      (.seq (lit ':') (.seq (.chr (inRange '0' '5')) (.seq (.chr (inRange '0' '9')) .eos))))

/-- Method `isAlarmTime(text)`. -/
def isAlarmTime (text : Str) : Bool := timePattern.test (trim text)

/-- The list `conversationIndicators` of `isAIConversation`. -/
def conversationIndicators : List Str :=
  ["?", "what", "how", "why", "when", "where", "who", "can you", "help", "tell me",
   "explain", "hello", "hi", "hey", "thanks", "thank you", "please", "sorry"].map String.toList

/-- Method `isAIConversation(message)`. -/
def isAIConversation (message : Str) : Bool :=
  if isMathExpression message || isFunctionExpression message || isAlarmTime message then
    false
  else
    let messageLower := toLowerCase message
    conversationIndicators.any (fun ind => includes messageLower ind) ||
      decide ((splitWhitespace message).length > 3)

/-! ## The fallback generator -/

/-- The object `creatorInfo` set by the constructor. -/
structure CreatorInfo where
  name : Str
  email : Str
  telegram : Str
  website : Str
  purpose : Str

/-- The value of `this.creatorInfo`. -/
def creatorInfo : CreatorInfo where
  name := "Choeng Rayu".toList
  email := "choengrayu307@gmail.com".toList
  telegram := "@President_Alein".toList
  website := "https://rayuchoeng-profolio-website.netlify.app/".toList
  purpose := "Created this bot for free to assist users with their needs".toList

/-- The reply of the first branch of `getFallbackResponse` (math keywords). -/
def mathFallback : Str :=
  "🧮 I\x27d love to help you with math! Please use the \x27🧮 Solve Math\x27 button to enter your mathematical expression, and I\x27ll solve it for you with detailed steps and a PDF report!".toList

/-- The reply of the second branch of `getFallbackResponse` (function keywords). -/
def functionFallback : Str :=
  "📈 For function analysis, please use the \x27📈 Solve Function\x27 button! I can analyze your function\x27s domain, derivatives, critical points, and create beautiful graphs with comprehensive PDF reports.".toList

/-- The reply of the third branch of `getFallbackResponse` (alarm keywords). -/
def alarmFallback : Str :=
  "⏰ Want to set an alarm? Use the \x27⏰ Set Alarm\x27 button! I can help you create up to 10 alarms with streak tracking to build great habits. Just tell me the time in HH:MM format!".toList

/-- The reply of the fourth branch of `getFallbackResponse` (creator keywords). -/
def creatorFallback : Str :=
  "👨‍💻 I was created by ".toList ++ creatorInfo.name ++ " (".toList ++ creatorInfo.telegram ++
  ")!\n\n📧 Email: ".toList ++ creatorInfo.email ++ "\n🌐 Website: ".toList ++
  creatorInfo.website ++
  "\n\nHe built me for free to help users like you with mathematics and productivity! 🎉".toList

/-- The reply of the fifth branch of `getFallbackResponse` (greeting keywords). -/
def greetingFallback : Str :=
  "👋 Hello! I\x27m MathBot, your intelligent mathematical assistant!\n\nI can help you with:\n🧮 **Solve Math** - Complex mathematical expressions\n📈 **Analyze Functions** - Complete function analysis with graphs\n⏰ **Set Alarms** - Custom reminders with streak tracking\n💬 **Chat** - General conversation and assistance\n\nWhat would you like to do today?".toList

/-- The reply of the last branch of `getFallbackResponse` (no keyword). -/
def defaultFallback : Str :=
  "🤖 I\x27m here to help! I can assist you with:\n\n🧮 Mathematical calculations and expressions\n📈 Function analysis and graphing\n⏰ Setting alarms and reminders\n💬 General questions and conversation\n\nPlease use the menu buttons or ask me anything!".toList

/-- The test `[...].some(k => messageLower.includes(k))`. -/
def someIncluded (keywords : List String) (messageLower : Str) : Bool :=
  keywords.any (fun k => includes messageLower k.toList)

/-- Method `getFallbackResponse(userMessage)`. -/
def getFallbackResponse (userMessage : Str) : Str :=
  let messageLower := toLowerCase userMessage
  if someIncluded ["math", "calculate", "solve", "equation", "expression"] messageLower then
    mathFallback
  else if someIncluded ["function", "graph", "derivative", "analyze", "plot"] messageLower then
    functionFallback
  else if someIncluded ["alarm", "reminder", "schedule", "time", "notify"] messageLower then
    alarmFallback
  else if someIncluded ["creator", "developer", "made", "who", "rayu", "choeng"]
      messageLower then
    creatorFallback
  else if someIncluded ["hello", "hi", "hey", "start", "help"] messageLower then
    greetingFallback
  else
    defaultFallback

/-! ## The conversation store -/

/-- A user identifier. -/
abbrev UserId := Nat

/-- The object `conversationEntry` built by `storeConversation`. -/
structure ConversationEntry where
  timestamp : Str
  user_message : Str
  ai_response : Str
deriving DecidableEq, Repr

/-- A user document, as far as this class reads it: the field `conversation_history` is an
array of entries or is missing. -/
structure User where
  conversation_history : Option (List ConversationEntry)
deriving DecidableEq, Repr

/-- The collection `dbManager.users`: at most one document for each user id. -/
abbrev Db := UserId → Option User

/-- A role-tagged message of a chat-completion request. -/
structure RoleMessage where
  role : Str
  content : Str
deriving DecidableEq, Repr

/-- JavaScript `Array.prototype.slice(start)` for an integer `start`: a negative `start`
counts from the end and is clamped at the beginning; `-0` is `0`. -/
def jsSlice {α : Type} (start : Int) (xs : List α) : List α :=
  if start < 0 then xs.drop (xs.length - start.natAbs) else xs.drop start.toNat

/-- Modelled from the spec: the update operator of the persistence collaborator
(`$push` with `$each` and `$slice: -keep`), "keyed upsert-append with slice-to-last-50
semantics": the new entries are appended to the stored array (a missing array counts as
empty) and only the last `keep` elements are retained. -/
def pushSlice (keep : Nat) (stored : Option (List ConversationEntry))
    (each : List ConversationEntry) : List ConversationEntry :=
  let all := stored.getD [] ++ each
  all.drop (all.length - keep)

/-- Modelled from the spec: `dbManager.users.updateOne` with the filter `user_id: userId`, a
`$push` update of `conversation_history` and `upsert: true`: the document of `userId` is
updated, and created first when there is none. -/
def updateOnePush (db : Db) (userId : UserId) (each : List ConversationEntry) (keep : Nat) :
    Db :=
  fun u =>
    if u = userId then
      some (User.mk
        (some (pushSlice keep ((db userId).bind (fun r => r.conversation_history)) each)))
    else db u

/-- Modelled from the spec: `dbManager.get_user`, the "keyed read returning the stored log
or an absent-record indicator". -/
def get_user (db : Db) (userId : UserId) : Option User := db userId

/-- Method `storeConversation(userId, userMessage, aiResponse)`; `timestamp` is the value
of `new Date().toISOString()` at the call. The result is the collection after the call. -/
def storeConversation (db : Db) (timestamp : Str) (userId : UserId)
    (userMessage aiResponse : Str) : Db :=
  let conversationEntry : ConversationEntry :=
    { timestamp := timestamp, user_message := userMessage, ai_response := aiResponse }
  updateOnePush db userId [conversationEntry] 50

/-- The loop of `getConversationHistory` that fills `formattedHistory`. -/
def formatHistory : List ConversationEntry → List RoleMessage
  | [] => []
  | entry :: rest =>
    { role := "user".toList, content := entry.user_message } ::
    { role := "assistant".toList, content := entry.ai_response } :: formatHistory rest

/-- Method `getConversationHistory(userId, limit)`, with `limit` a natural number; a call
that leaves `limit` out passes 10. -/
def getConversationHistory (db : Db) (userId : UserId) (limit : Nat) : List RoleMessage :=
  match get_user db userId with
  | some user =>
    match user.conversation_history with
    | some conversation_history =>
      let history := jsSlice (-(limit : Int)) conversation_history
      formatHistory history
    | none => []
  | none => []

/-! ## The completion request -/

/-- The array `messages` that `getAIResponse` puts into the payload. -/
def requestMessages (systemPrompt userMessage : Str) (conversationHistory : List RoleMessage) :
    List RoleMessage :=
  let messages : List RoleMessage := [{ role := "system".toList, content := systemPrompt }]
  let messages :=
    if conversationHistory.length > 0 then messages ++ jsSlice (-10) conversationHistory
    else messages
  messages ++ [{ role := "user".toList, content := userMessage }]

/-- What the call of `fetch` and the reading of the body come to. -/
inductive ApiOutcome where
  /-- A response with its status; `content` is `result.choices[0].message.content`, or
  `none` when reading it throws. -/
  | response (status : Nat) (content : Option Str)
  /-- The request timed out (`e.type === \x27request-timeout\x27`). -/
  | timeout
  /-- Any other exception. -/
  | failure

/-- The reply of `getAIResponse` on a timeout. -/
def timeoutReply : Str :=
  "⏰ Sorry, I\x27m taking a bit longer to respond. Please try again!".toList

/-- Method `getAIResponse(userMessage, userId, conversationHistory)`: the reply, and the
user collection afterwards. `systemPrompt` is `this.systemPrompt`; `api` is the completion API,
which answers the message list of the payload (the other fields of the payload are
constants); `timestamp` is the clock reading that `storeConversation` would take. -/
def getAIResponse (systemPrompt : Str) (api : List RoleMessage → ApiOutcome) (db : Db)
    (timestamp : Str) (userMessage : Str) (userId : UserId)
    (conversationHistory : List RoleMessage) : Str × Db :=
  match api (requestMessages systemPrompt userMessage conversationHistory) with
  | .response status content =>
    if status = 200 then
      match content with
      | some aiResponse =>
        (aiResponse, storeConversation db timestamp userId userMessage aiResponse)
      | none => (getFallbackResponse userMessage, db)
    else (getFallbackResponse userMessage, db)
  | .timeout => (timeoutReply, db)
  | .failure => (getFallbackResponse userMessage, db)

/-! ## Entries, collections and inputs used in the statements -/

/-- The collection without any document. -/
def emptyDb : Db := fun _ => none

/-- The stored log of a user: the empty log when the record or its history is absent. -/
def logOf (db : Db) (userId : UserId) : List ConversationEntry :=
  ((db userId).bind (fun r => r.conversation_history)).getD []

/-- One call of `storeConversation`, as data: timestamp, user message, response. -/
structure Append where
  timestamp : Str
  userMessage : Str
  aiResponse : Str
deriving DecidableEq, Repr

/-- The entry that `storeConversation` builds for an append. -/
def Append.entry (a : Append) : ConversationEntry :=
  { timestamp := a.timestamp, user_message := a.userMessage, ai_response := a.aiResponse }

/-- The collection after the appends `as` for `userId`, issued one after the other. -/
def storeAll (db : Db) (userId : UserId) : List Append → Db
  | [] => db
  | a :: rest =>
    storeAll (storeConversation db a.timestamp userId a.userMessage a.aiResponse) userId rest

/-- The role-tagged pair that stands for one append in a transcript. -/
def Append.messages (a : Append) : List RoleMessage :=
  [{ role := "user".toList, content := a.userMessage },
   { role := "assistant".toList, content := a.aiResponse }]

/-- The last `k` elements of a list. -/
def lastN {α : Type} (k : Nat) (xs : List α) : List α := xs.drop (xs.length - k)

/-- The append number `i` of a test run: the question is `i + 1` letters `q` and the reply
is `i + 1` letters `r`. -/
def sampleAppend (i : Nat) : Append :=
  { timestamp := [], userMessage := List.replicate (i + 1) 'q',
    aiResponse := List.replicate (i + 1) 'r' }

/-- The first `n` sample appends. -/
def sampleAppends (n : Nat) : List Append := (List.range n).map sampleAppend

/-- The system message of a request. -/
def systemMessage (systemPrompt : Str) : RoleMessage :=
  { role := "system".toList, content := systemPrompt }

/-- The message of a request that carries the new user text. -/
def userMessageOf (userMessage : Str) : RoleMessage :=
  { role := "user".toList, content := userMessage }


/-! ## The predicates in the words of the specification -/

/-- The value of a decimal digit character. -/
def digitVal (c : Char) : Nat := c.toNat - 48

/-- The clock-time format of the specification, "HH:MM with HH in 00-23 and MM in 00-59" and
nothing else, where the hour is the hour field of the quoted pattern
`([01]?[0-9]|2[0-3])`: two digits, or one digit. -/
def isClockText : Str → Bool
  | [h1, h2, c, m1, m2] =>
    isDigit h1 && isDigit h2 && c == ':' && isDigit m1 && isDigit m2 &&
    decide (10 * digitVal h1 + digitVal h2 ≤ 23) && decide (10 * digitVal m1 + digitVal m2 ≤ 59)
  | [h2, c, m1, m2] =>
    isDigit h2 && c == ':' && isDigit m1 && isDigit m2 &&
    decide (10 * digitVal m1 + digitVal m2 ≤ 59)
  | _ => false

/-- The first character of `t` satisfies `p`. -/
def headIs (p : Char → Bool) : Str → Bool
  | [] => false
  | c :: _ => p c

/-- Some position of `s` satisfies `p`, a test on the text from that position on. -/
def occurs (p : Str → Bool) (s : Str) : Bool := s.tails.any p

/-- Wording "optional whitespace and `=`": the text after its leading white space starts
with `=`. -/
def spacesThenEq (t : Str) : Bool := headIs (fun c => c == '=') (t.dropWhile isJsSpace)

/-- Wording "`f(x)` followed by optional whitespace and `=` (case-insensitive)", at the
start of `t`. -/
def startsFxEq : Str → Bool
  | f :: p :: x :: q :: rest =>
    ciChar 'f' f && p == '(' && ciChar 'x' x && q == ')' && spacesThenEq rest
  | _ => false

/-- Wording "`y` followed by optional whitespace and `=` (case-insensitive)", at the
start of `t`. -/
def startsYEq : Str → Bool
  | y :: rest => ciChar 'y' y && spacesThenEq rest
  | [] => false

/-- Wording "an `x` followed optionally by `^` and a digit", at the start of `t`: an `x`
(as told by `isX`), then a digit, with or without a `^` between them. -/
def startsXPower (isX : Char → Bool) : Str → Bool
  | x :: rest =>
    isX x && (headIs isDigit rest || (headIs (fun c => c == '^') rest && headIs isDigit rest.tail))
  | [] => false

/-- Wording "an `x` immediately followed by an arithmetic operator", at the start of `t`,
for the operators `isOp`. -/
def startsXOp (isX isOp : Char → Bool) : Str → Bool
  | x :: rest => isX x && headIs isOp rest
  | [] => false

/-- The function-expression test as the specification words it: the first two alternatives
are case-insensitive, the `x` of the last two is the small letter, and the arithmetic
operators are the five that the specification lists, `+ - * / ^`. -/
def claimedFunctionExpression (text : Str) : Bool :=
  occurs startsFxEq text || occurs startsYEq text ||
  occurs (startsXPower (fun c => c == 'x')) text ||
  occurs (startsXOp (fun c => c == 'x') isMathOp) text

/-- The function-expression test, amended: all four alternatives are case-insensitive, and
the operators after `x` are `+ - * /`. -/
def amendedFunctionExpression (text : Str) : Bool :=
  occurs startsFxEq text || occurs startsYEq text ||
  occurs (startsXPower (ciChar 'x')) text ||
  occurs (startsXOp (ciChar 'x') isFnOp) text

/-- The words of `s` counted one by one: a word starts at every character that is not white
space and that stands first or follows white space; `inWord` tells that the previous
character belongs to a word. -/
def countWords : Str → Bool → Nat
  | [], _ => 0
  | c :: cs, inWord =>
    if isJsSpace c then countWords cs false
    else (if inWord then 0 else 1) + countWords cs true

/-- The number of words of `s`. -/
def wordCount (s : Str) : Nat := countWords s false

/-- The conversational test as the specification words it: none of the three other
predicates accepts the text, and the text holds a question mark or a keyword
(case-insensitively) or has more than 3 words. -/
def claimedConversation (text : Str) : Bool :=
  !(isAlarmTime text || isMathExpression text || isFunctionExpression text) &&
  (conversationIndicators.any (fun ind => includes (toLowerCase text) ind) ||
    decide (wordCount text > 3))

/-- The first letters of the function names of `functionNamePattern`, in either case. -/
def isNameStart (c : Char) : Bool :=
  ciChar 's' c || ciChar 'c' c || ciChar 't' c || ciChar 'l' c || ciChar 'e' c || ciChar 'a' c


/-- The characters that some pattern of `mathPatterns` cannot match without. -/
def mathNeeds (c : Char) : Bool := isMathOp c || isNameStart c || c == '.' || c == '('

/-- The characters that some pattern of `functionPatterns` cannot match without. -/
def fnNeeds (c : Char) : Bool := ciChar 'f' c || ciChar 'x' c || ciChar 'y' c

/-- The characters of a clock time with white space around it. -/
def isClockChar (c : Char) : Bool := isJsSpace c || isDigit c || c == ':'

/-! # Lemmas -/

/-! ## Lists -/

theorem lastN_length {α : Type} (k : Nat) (xs : List α) :
    (lastN k xs).length = min k xs.length := by
  simp [lastN]; omega

theorem lastN_append_of_le {α : Type} (k : Nat) (p zs : List α) (h : k ≤ zs.length) :
    lastN k (p ++ zs) = lastN k zs := by
  unfold lastN
  have h1 : (p ++ zs).length - k = p.length + (zs.length - k) := by
    simp only [List.length_append]; omega
  rw [h1, ← List.drop_drop, List.drop_left]

theorem lastN_of_length_le {α : Type} (k : Nat) (xs : List α) (h : xs.length ≤ k) :
    lastN k xs = xs := by
  unfold lastN
  have h1 : xs.length - k = 0 := by omega
  rw [h1, List.drop_zero]

theorem lastN_lastN_append {α : Type} (k : Nat) (xs ys : List α) :
    lastN k (lastN k xs ++ ys) = lastN k (xs ++ ys) := by
  by_cases h : xs.length ≤ k
  · rw [lastN_of_length_le k xs h]
  · have hx : xs = xs.take (xs.length - k) ++ lastN k xs := by
      unfold lastN; rw [List.take_append_drop]
    have hl : k ≤ (lastN k xs ++ ys).length := by
      simp only [List.length_append, lastN_length]; omega
    conv_rhs => rw [hx, List.append_assoc]
    rw [lastN_append_of_le k _ _ hl]

theorem lastN_lastN {α : Type} (j k : Nat) (xs : List α) :
    lastN j (lastN k xs) = lastN (min j k) xs := by
  unfold lastN
  simp only [List.length_drop, List.drop_drop]
  congr 1
  omega

theorem jsSlice_neg {α : Type} (k : Nat) (hk : 1 ≤ k) (xs : List α) :
    jsSlice (-(k : Int)) xs = lastN k xs := by
  unfold jsSlice lastN
  have : (-(k : Int)) < 0 := by omega
  simp [this]

theorem formatHistory_append (xs ys : List ConversationEntry) :
    formatHistory (xs ++ ys) = formatHistory xs ++ formatHistory ys := by
  induction xs with
  | nil => rfl
  | cons x xs ih => simp [formatHistory, ih]

theorem formatHistory_length (xs : List ConversationEntry) :
    (formatHistory xs).length = 2 * xs.length := by
  induction xs with
  | nil => rfl
  | cons x xs ih => simp [formatHistory, ih]; omega

theorem formatHistory_map (as : List Append) :
    formatHistory (as.map Append.entry) = as.flatMap Append.messages := by
  induction as with
  | nil => rfl
  | cons a as ih => simp [formatHistory, ih, Append.messages, Append.entry]

/-! ## The store -/

theorem logOf_storeConversation (db : Db) (ts : Str) (userId : UserId) (um ar : Str) :
    logOf (storeConversation db ts userId um ar) userId =
      lastN 50 (logOf db userId ++ [⟨ts, um, ar⟩]) := by
  simp [logOf, storeConversation, updateOnePush, pushSlice, lastN]

theorem storeConversation_get (db : Db) (ts : Str) (userId : UserId) (um ar : Str) :
    storeConversation db ts userId um ar userId =
      some ⟨some (logOf (storeConversation db ts userId um ar) userId)⟩ := by
  simp [logOf, storeConversation, updateOnePush]

theorem logOf_storeAll (as : List Append) (db : Db) (userId : UserId) (has : as ≠ []) :
    logOf (storeAll db userId as) userId = lastN 50 (logOf db userId ++ as.map Append.entry) ∧
    storeAll db userId as userId = some ⟨some (logOf (storeAll db userId as) userId)⟩ := by
  induction as generalizing db with
  | nil => exact absurd rfl has
  | cons a as ih =>
    by_cases hn : as = []
    · subst hn
      exact ⟨logOf_storeConversation db _ userId _ _, storeConversation_get db _ userId _ _⟩
    · obtain ⟨h1, h2⟩ := ih (storeConversation db a.timestamp userId a.userMessage a.aiResponse) hn
      refine ⟨?_, h2⟩
      show logOf (storeAll (storeConversation db a.timestamp userId a.userMessage a.aiResponse)
        userId as) userId = _
      rw [h1, logOf_storeConversation, lastN_lastN_append]
      simp [Append.entry]

theorem getConversationHistory_of_log (db : Db) (userId : UserId) (limit : Nat)
    (log : List ConversationEntry) (h : db userId = some ⟨some log⟩) :
    getConversationHistory db userId limit = formatHistory (jsSlice (-(limit : Int)) log) := by
  simp [getConversationHistory, get_user, h]

/-! ## Characters -/

theorem char_eq_iff_toNat (a b : Char) : a = b ↔ a.toNat = b.toNat := by
  constructor
  · intro h; rw [h]
  · intro h
    apply Char.ext
    apply UInt32.ext
    exact h

/-! ## The matcher -/

theorem matchFrom_seq_chr_cons (n : Nat) (p : Char → Bool) (r : Regex) (c : Char) (cs : Str) :
    matchFrom n (.seq (.chr p) r) (c :: cs) = if p c then matchFrom n r cs else [] := by
  by_cases h : p c <;> simp [matchFrom, h]

theorem matchFrom_seq_chr_nil (n : Nat) (p : Char → Bool) (r : Regex) :
    matchFrom n (.seq (.chr p) r) [] = [] := by
  simp [matchFrom]

theorem matchFrom_chr_cons (n : Nat) (p : Char → Bool) (c : Char) (cs : Str) :
    matchFrom n (.chr p) (c :: cs) = if p c then [cs] else [] := by
  simp [matchFrom]

theorem matchFrom_chr_nil (n : Nat) (p : Char → Bool) : matchFrom n (.chr p) [] = [] := by
  simp [matchFrom]

theorem matchFrom_seq_assoc (n : Nat) (a b c : Regex) (s : Str) :
    matchFrom n (.seq (.seq a b) c) s = matchFrom n (.seq a (.seq b c)) s := by
  simp [matchFrom, List.flatMap_assoc]

theorem matchFrom_seq_alt (n : Nat) (a b c : Regex) (s : Str) :
    matchFrom n (.seq (.alt a b) c) s = matchFrom n (.seq a c) s ++ matchFrom n (.seq b c) s := by
  simp [matchFrom]

theorem matchFrom_seq_opt_cons (n : Nat) (p : Char → Bool) (r : Regex) (c : Char) (cs : Str) :
    matchFrom n (.seq (.opt p) r) (c :: cs) =
      if p c then matchFrom n r cs ++ matchFrom n r (c :: cs) else matchFrom n r (c :: cs) := by
  by_cases h : p c <;> simp [matchFrom, h]

theorem matchFrom_seq_opt_nil (n : Nat) (p : Char → Bool) (r : Regex) :
    matchFrom n (.seq (.opt p) r) [] = matchFrom n r [] := by
  simp [matchFrom]

theorem length_lt_of_mem_tails_tail {α : Type} (c : α) (cs t : List α) (h : t ∈ cs.tails) :
    t.length ≠ (c :: cs).length := by
  have := (List.mem_tails t cs).1 h
  have := this.length_le
  simp only [List.length_cons]
  omega

theorem test_bos (r : Regex) (s : Str) :
    (Regex.seq .bos r).test s = !(matchFrom s.length r s).isEmpty := by
  unfold Regex.test
  cases s with
  | nil => simp [matchFrom]
  | cons c cs =>
    rw [List.tails, List.any_cons]
    have h : cs.tails.any (fun t => !(matchFrom (c :: cs).length (Regex.seq .bos r) t).isEmpty)
        = false := by
      rw [List.any_eq_false]
      intro t ht
      have := length_lt_of_mem_tails_tail c cs t ht
      simp only [List.length_cons] at this
      simp [matchFrom, this]
    rw [h]
    simp [matchFrom]

theorem matchFrom_eos_nil (n : Nat) : matchFrom n .eos [] = [[]] := by
  simp [matchFrom]

theorem matchFrom_eos_cons (n : Nat) (c : Char) (cs : Str) : matchFrom n .eos (c :: cs) = [] := by
  simp [matchFrom]

theorem inRange_iff (lo hi c : Char) :
    inRange lo hi c = true ↔ lo.toNat ≤ c.toNat ∧ c.toNat ≤ hi.toNat := by
  simp [inRange]

theorem isDigit_iff (c : Char) : isDigit c = true ↔ 48 ≤ c.toNat ∧ c.toNat ≤ 57 := by
  simp [isDigit]

theorem ite_eq_nil_iff {α : Type} (c : Prop) [Decidable c] (xs ys : List α) :
    (if c then xs else ys) = [] ↔ (c ∧ xs = []) ∨ (¬c ∧ ys = []) := by
  split <;> simp [*]

theorem timePattern_test (s : Str) : timePattern.test s = isClockText s := by
  unfold timePattern
  rw [test_bos]
  generalize s.length = n
  rcases s with _ | ⟨a, _ | ⟨b, _ | ⟨c, _ | ⟨d, _ | ⟨e, _ | ⟨f, s⟩⟩⟩⟩⟩⟩
  all_goals simp only [matchFrom_seq_alt, matchFrom_seq_assoc, matchFrom_seq_opt_cons,
    matchFrom_seq_opt_nil, matchFrom_seq_chr_cons, matchFrom_seq_chr_nil, matchFrom_eos_nil,
    matchFrom_eos_cons, lit, isClockText]
  all_goals rw [Bool.eq_iff_iff]
  all_goals simp only [Bool.not_eq_true', ← Bool.not_eq_true, List.isEmpty_iff,
    List.append_eq_nil, ite_eq_nil_iff, List.cons_ne_nil, and_false, and_true, or_false,
    false_or, or_self, not_false_eq_true, iff_false, true_and, Classical.not_not,
    not_true_eq_false, Bool.false_eq_true,
    beq_iff_eq, Bool.and_eq_true, decide_eq_true_eq, inRange_iff,
    isDigit_iff, digitVal, char_eq_iff_toNat _ ':', char_eq_iff_toNat _ '2', Char.reduceToNat]
  all_goals omega

theorem toNat_ofNat_of_lt (n : Nat) (h : n < 55296) : (Char.ofNat n).toNat = n := by
  have hv : n.isValidChar := Or.inl h
  simp only [Char.ofNat, hv, dite_true, Char.ofNatAux, Char.toNat]
  rfl

theorem starEnds_ne_nil (p : Char → Bool) (s : Str) : starEnds p s ≠ [] := by
  cases s with
  | nil => simp [starEnds]
  | cons c cs => by_cases h : p c <;> simp [starEnds, h]

theorem matchFrom_plus_cons (n : Nat) (p : Char → Bool) (c : Char) (cs : Str) :
    matchFrom n (.plus p) (c :: cs) = if p c then starEnds p cs else [] := by
  simp [matchFrom]

theorem matchFrom_plus_nil (n : Nat) (p : Char → Bool) : matchFrom n (.plus p) [] = [] := by
  simp [matchFrom]

theorem accepts_plus (n : Nat) (p : Char → Bool) (s : Str) :
    (!(matchFrom n (.plus p) s).isEmpty) = headIs p s := by
  cases s with
  | nil => simp [matchFrom, headIs]
  | cons c cs =>
    by_cases h : p c
    · have := starEnds_ne_nil p cs
      simp [matchFrom, headIs, h, List.isEmpty_iff, this]
    · simp [matchFrom, headIs, h]

theorem accepts_star_chr (n : Nat) (p q : Char → Bool) (hpq : ∀ c, q c = true → p c = false)
    (s : Str) :
    (!(matchFrom n (.seq (.star p) (.chr q)) s).isEmpty) = headIs q (s.dropWhile p) := by
  induction s with
  | nil => simp [matchFrom, starEnds, headIs]
  | cons c cs ih =>
    by_cases h : p c
    · have hq : q c = false := by
        cases hqc : q c with
        | false => rfl
        | true => rw [hpq c hqc] at h; exact absurd h (by simp)
      have hd : List.dropWhile p (c :: cs) = List.dropWhile p cs := by
        simp [List.dropWhile, h]
      rw [hd, ← ih]
      simp [matchFrom, starEnds, h, hq]
    · cases hqc : q c <;> simp [matchFrom, starEnds, h, hqc, headIs, List.dropWhile]

theorem test_eq_occurs (r : Regex) (p : Str → Bool)
    (h : ∀ n t, (!(matchFrom n r t).isEmpty) = p t) (s : Str) : r.test s = occurs p s := by
  unfold Regex.test occurs
  congr 1
  funext t
  exact h _ t

theorem accepts_ite {α : Type} (b : Bool) (xs : List α) :
    (!(if b = true then xs else []).isEmpty) = (b && !xs.isEmpty) := by
  cases b <;> simp

theorem ciChar_paren_open : ciChar '(' = fun c => c == '(' := by
  funext c; simp [ciChar, swapCase]

theorem ciChar_paren_close : ciChar ')' = fun c => c == ')' := by
  funext c; simp [ciChar, swapCase]

theorem ciChar_eq_sign : ciChar '=' = fun c => c == '=' := by
  funext c; simp [ciChar, swapCase]

theorem ciChar_caret : ciChar '^' = fun c => c == '^' := by
  funext c; simp [ciChar, swapCase]

theorem eq_sign_not_space (c : Char) (h : (c == '=') = true) : isJsSpace c = false := by
  have : c = '=' := by simpa using h
  subst this
  decide

theorem accepts_spaces_eq (n : Nat) (s : Str) :
    (!(matchFrom n (.seq (.star isJsSpace) (litI '=')) s).isEmpty) = spacesThenEq s := by
  unfold litI spacesThenEq
  rw [ciChar_eq_sign]
  exact accepts_star_chr n isJsSpace (fun c => c == '=') eq_sign_not_space s

theorem accepts_fxEq (n : Nat) (t : Str) :
    (!(matchFrom n fxEqPattern t).isEmpty) = startsFxEq t := by
  unfold fxEqPattern
  rcases t with _ | ⟨a, _ | ⟨b, _ | ⟨c, _ | ⟨d, rest⟩⟩⟩⟩
  · simp [litI, matchFrom_seq_chr_nil, startsFxEq]
  · simp [litI, matchFrom_seq_chr_nil, matchFrom_seq_chr_cons, startsFxEq]
  · simp [litI, matchFrom_seq_chr_nil, matchFrom_seq_chr_cons, startsFxEq]
  · simp [litI, matchFrom_seq_chr_nil, matchFrom_seq_chr_cons, startsFxEq]
  · have h := accepts_spaces_eq n rest
    simp only [litI] at h ⊢
    simp only [matchFrom_seq_chr_cons, accepts_ite, h, startsFxEq, ciChar_paren_open,
      ciChar_paren_close, Bool.and_assoc]

theorem accepts_yEq (n : Nat) (t : Str) :
    (!(matchFrom n yEqPattern t).isEmpty) = startsYEq t := by
  unfold yEqPattern
  rcases t with _ | ⟨a, rest⟩
  · simp [litI, matchFrom_seq_chr_nil, startsYEq]
  · have h := accepts_spaces_eq n rest
    simp only [litI] at h ⊢
    simp only [matchFrom_seq_chr_cons, accepts_ite, h, startsYEq]

theorem accepts_xPower (n : Nat) (t : Str) :
    (!(matchFrom n xPowerPattern t).isEmpty) = startsXPower (ciChar 'x') t := by
  unfold xPowerPattern
  rcases t with _ | ⟨a, _ | ⟨b, rest⟩⟩
  · simp [litI, matchFrom_seq_chr_nil, startsXPower]
  · simp [litI, matchFrom_seq_chr_cons, matchFrom_seq_opt_nil, matchFrom_plus_nil, startsXPower,
      headIs]
  · have h1 := accepts_plus n isDigit rest
    have h2 := accepts_plus n isDigit (b :: rest)
    simp only [litI, matchFrom_seq_chr_cons, matchFrom_seq_opt_cons, accepts_ite, startsXPower,
      ciChar_caret, List.tail_cons]
    congr 1
    by_cases hb : (b == '^') = true
    · have hd : isDigit b = false := by
        have : b = '^' := by simpa using hb
        subst this; decide
      have h3 : matchFrom n (.plus isDigit) (b :: rest) = [] := by
        simp [matchFrom_plus_cons, hd]
      simp only [hb, if_true, h3, List.append_nil, h1, headIs, hd, Bool.false_or, Bool.true_and]
    · have hb' : (b == '^') = false := by simpa using hb
      simp only [hb', Bool.false_eq_true, if_false, h2, headIs, Bool.false_and, Bool.or_false]

theorem accepts_xOp (n : Nat) (t : Str) :
    (!(matchFrom n xOperatorPattern t).isEmpty) = startsXOp (ciChar 'x') isFnOp t := by
  unfold xOperatorPattern
  rcases t with _ | ⟨a, _ | ⟨b, rest⟩⟩
  · simp [litI, matchFrom_seq_chr_nil, startsXOp]
  · simp [litI, matchFrom_seq_chr_cons, matchFrom_chr_nil, startsXOp, headIs]
  · simp only [litI, matchFrom_seq_chr_cons, matchFrom_chr_cons, accepts_ite, startsXOp, headIs]
    cases isFnOp b <;> simp

theorem functionPatterns_test_eq (text : Str) :
    isFunctionExpression text = amendedFunctionExpression text := by
  unfold isFunctionExpression functionPatterns amendedFunctionExpression
  simp only [List.any_cons, List.any_nil, Bool.or_false, Bool.or_assoc]
  rw [test_eq_occurs _ _ accepts_fxEq, test_eq_occurs _ _ accepts_yEq,
    test_eq_occurs _ _ accepts_xPower, test_eq_occurs _ _ accepts_xOp]

/-! ## Texts without the characters that a pattern needs -/

theorem test_eq_false (r : Regex) (q : Char → Bool) (s : Str)
    (h : ∀ n t, matchFrom n r t ≠ [] → ∃ c ∈ t, q c = true) (hs : ∀ c ∈ s, q c = false) :
    r.test s = false := by
  unfold Regex.test
  rw [List.any_eq_false]
  intro t ht hne
  have hsuf := (List.mem_tails t s).1 ht
  have hne' : matchFrom s.length r t ≠ [] := by
    intro h0
    rw [h0] at hne
    simp at hne
  obtain ⟨c, hc, hq⟩ := h _ t hne'
  rw [hs c (hsuf.subset hc)] at hq
  exact absurd hq (by simp)

theorem needs_head (n : Nat) (p : Char → Bool) (r : Regex) (t : Str)
    (h : matchFrom n (.seq (.chr p) r) t ≠ []) : ∃ c ∈ t, p c = true := by
  cases t with
  | nil => simp [matchFrom] at h
  | cons c cs =>
    by_cases hp : p c = true
    · exact ⟨c, List.mem_cons_self c cs, hp⟩
    · rw [matchFrom_seq_chr_cons] at h
      simp [hp] at h

theorem needs_chr (n : Nat) (p : Char → Bool) (t : Str)
    (h : matchFrom n (.chr p) t ≠ []) : ∃ c ∈ t, p c = true := by
  cases t with
  | nil => simp [matchFrom] at h
  | cons c cs =>
    by_cases hp : p c = true
    · exact ⟨c, List.mem_cons_self c cs, hp⟩
    · rw [matchFrom_chr_cons] at h
      simp [hp] at h

theorem needs_alt (n : Nat) (a b : Regex) (q : Char → Bool) (t : Str)
    (ha : matchFrom n a t ≠ [] → ∃ c ∈ t, q c = true)
    (hb : matchFrom n b t ≠ [] → ∃ c ∈ t, q c = true)
    (h : matchFrom n (.alt a b) t ≠ []) : ∃ c ∈ t, q c = true := by
  by_cases h1 : matchFrom n a t = []
  · apply hb
    intro h2
    apply h
    simp [matchFrom, h1, h2]
  · exact ha h1

theorem mem_starEnds_suffix (p : Char → Bool) (s e : Str) (h : e ∈ starEnds p s) :
    e <:+ s := by
  induction s with
  | nil =>
    simp [starEnds] at h
    subst h
    exact List.suffix_refl _
  | cons c cs ih =>
    by_cases hp : p c = true
    · simp only [starEnds, hp, if_true, List.mem_append, List.mem_singleton] at h
      rcases h with h | h
      · exact (ih h).trans (List.suffix_cons c cs)
      · subst h; exact List.suffix_refl _
    · simp only [starEnds, hp, Bool.false_eq_true, if_false, List.mem_singleton] at h
      subst h; exact List.suffix_refl _

theorem mem_plus_suffix (n : Nat) (p : Char → Bool) (s e : Str)
    (h : e ∈ matchFrom n (.plus p) s) : e <:+ s := by
  cases s with
  | nil => simp [matchFrom] at h
  | cons c cs =>
    rw [matchFrom_plus_cons] at h
    by_cases hp : p c = true
    · simp only [hp, if_true] at h
      exact (mem_starEnds_suffix p cs e h).trans (List.suffix_cons c cs)
    · simp [hp] at h

theorem matchFrom_seq (n : Nat) (a b : Regex) (s : Str) :
    matchFrom n (.seq a b) s = (matchFrom n a s).flatMap (matchFrom n b) := by
  simp [matchFrom]

theorem needs_after_plus (n : Nat) (p q : Char → Bool) (r : Regex) (t : Str)
    (h : matchFrom n (.seq (.plus p) (.seq (.chr q) r)) t ≠ []) : ∃ c ∈ t, q c = true := by
  have h1 : ∃ e ∈ matchFrom n (.plus p) t, matchFrom n (.seq (.chr q) r) e ≠ [] := by
    by_contra hcon
    apply h
    rw [matchFrom_seq, List.flatMap_eq_nil_iff]
    intro e he
    by_contra hne
    exact hcon ⟨e, he, hne⟩
  obtain ⟨e, he, hne⟩ := h1
  obtain ⟨c, hc, hq⟩ := needs_head n q r e hne
  exact ⟨c, (mem_plus_suffix n p t e he).subset hc, hq⟩

theorem needs_wordI (n : Nat) (c : Char) (cs t : Str) (q : Char → Bool)
    (hq : ∀ d, ciChar c d = true → q d = true)
    (h : matchFrom n (wordI (c :: cs)) t ≠ []) : ∃ d ∈ t, q d = true := by
  obtain ⟨d, hd, hp⟩ := needs_head n (ciChar c) (wordI cs) t h
  exact ⟨d, hd, hq d hp⟩

theorem needs_functionName (n : Nat) (t : Str) (h : matchFrom n functionNamePattern t ≠ []) :
    ∃ c ∈ t, isNameStart c = true := by
  unfold functionNamePattern at h
  have hw : ∀ (c : Char) (cs : Str), (∀ d, ciChar c d = true → isNameStart d = true) →
      matchFrom n (wordI (c :: cs)) t ≠ [] → ∃ d ∈ t, isNameStart d = true :=
    fun c cs hq => needs_wordI n c cs t isNameStart hq
  refine needs_alt n _ _ _ t (hw 's' _ ?_) (needs_alt n _ _ _ t (hw 'c' _ ?_)
    (needs_alt n _ _ _ t (hw 't' _ ?_) (needs_alt n _ _ _ t (hw 'l' _ ?_)
    (needs_alt n _ _ _ t (hw 'l' _ ?_) (needs_alt n _ _ _ t (hw 's' _ ?_)
    (needs_alt n _ _ _ t (hw 'e' _ ?_) (hw 'a' _ ?_))))))) h
  all_goals intro d hd
  all_goals simp [isNameStart, hd]

theorem isMathExpression_eq_false (s : Str) (hs : ∀ c ∈ s, mathNeeds c = false) :
    isMathExpression s = false := by
  unfold isMathExpression mathPatterns
  simp only [List.any_cons, List.any_nil, Bool.or_false, Bool.or_eq_false_iff]
  refine ⟨?_, ?_, ?_, ?_⟩
  · apply test_eq_false operatorPattern mathNeeds s _ hs
    intro n t h
    obtain ⟨c, hc, hp⟩ := needs_chr n isMathOp t h
    exact ⟨c, hc, by simp [mathNeeds, hp]⟩
  · apply test_eq_false functionNamePattern mathNeeds s _ hs
    intro n t h
    obtain ⟨c, hc, hp⟩ := needs_functionName n t h
    exact ⟨c, hc, by simp [mathNeeds, hp]⟩
  · apply test_eq_false decimalPattern mathNeeds s _ hs
    intro n t h
    obtain ⟨c, hc, hp⟩ := needs_after_plus n isDigit _ _ t h
    exact ⟨c, hc, by simp [mathNeeds, hp]⟩
  · apply test_eq_false parenNumberPattern mathNeeds s _ hs
    intro n t h
    obtain ⟨c, hc, hp⟩ := needs_head n _ _ t h
    exact ⟨c, hc, by simp [mathNeeds, hp]⟩

theorem isFunctionExpression_eq_false (s : Str) (hs : ∀ c ∈ s, fnNeeds c = false) :
    isFunctionExpression s = false := by
  unfold isFunctionExpression functionPatterns
  simp only [List.any_cons, List.any_nil, Bool.or_false, Bool.or_eq_false_iff]
  refine ⟨?_, ?_, ?_, ?_⟩
  · apply test_eq_false fxEqPattern fnNeeds s _ hs
    intro n t h
    obtain ⟨c, hc, hp⟩ := needs_head n _ _ t h
    exact ⟨c, hc, by simp [fnNeeds, hp]⟩
  · apply test_eq_false yEqPattern fnNeeds s _ hs
    intro n t h
    obtain ⟨c, hc, hp⟩ := needs_head n _ _ t h
    exact ⟨c, hc, by simp [fnNeeds, hp]⟩
  · apply test_eq_false xPowerPattern fnNeeds s _ hs
    intro n t h
    obtain ⟨c, hc, hp⟩ := needs_head n _ _ t h
    exact ⟨c, hc, by simp [fnNeeds, hp]⟩
  · apply test_eq_false xOperatorPattern fnNeeds s _ hs
    intro n t h
    obtain ⟨c, hc, hp⟩ := needs_head n _ _ t h
    exact ⟨c, hc, by simp [fnNeeds, hp]⟩

theorem mem_trim_or_space (s : Str) (c : Char) (hc : c ∈ s) :
    c ∈ trim s ∨ isJsSpace c = true := by
  unfold trim
  rw [← List.takeWhile_append_dropWhile isJsSpace s, List.mem_append] at hc
  rcases hc with hc | hc
  · exact Or.inr (List.mem_takeWhile_imp hc)
  · rw [← List.mem_reverse,
      ← List.takeWhile_append_dropWhile isJsSpace (List.dropWhile isJsSpace s).reverse,
      List.mem_append] at hc
    rcases hc with hc | hc
    · exact Or.inr (List.mem_takeWhile_imp hc)
    · exact Or.inl (List.mem_reverse.2 hc)

theorem isClockText_chars (t : Str) (h : isClockText t = true) (c : Char) (hc : c ∈ t) :
    isDigit c = true ∨ c = ':' := by
  rcases t with _ | ⟨a, _ | ⟨b, _ | ⟨c1, _ | ⟨d, _ | ⟨e, _ | ⟨f, s⟩⟩⟩⟩⟩⟩
  all_goals simp only [isClockText, Bool.and_eq_true, beq_iff_eq, Bool.false_eq_true] at h
  · simp only [List.mem_cons, List.mem_singleton, List.not_mem_nil, or_false] at hc
    rcases hc with rfl | rfl | rfl | rfl
    · exact Or.inl h.1.1.1.1
    · exact Or.inr h.1.1.1.2
    · exact Or.inl h.1.1.2
    · exact Or.inl h.1.2
  · simp only [List.mem_cons, List.mem_singleton, List.not_mem_nil, or_false] at hc
    rcases hc with rfl | rfl | rfl | rfl | rfl
    · exact Or.inl h.1.1.1.1.1.1
    · exact Or.inl h.1.1.1.1.1.2
    · exact Or.inr h.1.1.1.1.2
    · exact Or.inl h.1.1.1.2
    · exact Or.inl h.1.1.2

theorem isAlarmTime_chars (text : Str) (h : isAlarmTime text = true) (c : Char)
    (hc : c ∈ text) : isClockChar c = true := by
  unfold isAlarmTime at h
  rw [timePattern_test] at h
  rcases mem_trim_or_space text c hc with h1 | h1
  · rcases isClockText_chars _ h c h1 with h2 | h2
    · simp [isClockChar, h2]
    · simp [isClockChar, h2]
  · simp [isClockChar, h1]

theorem swapCase_letters :
    swapCase 's' = 'S' ∧ swapCase 'c' = 'C' ∧ swapCase 't' = 'T' ∧ swapCase 'l' = 'L' ∧
    swapCase 'e' = 'E' ∧ swapCase 'a' = 'A' ∧ swapCase 'f' = 'F' ∧ swapCase 'x' = 'X' ∧
    swapCase 'y' = 'Y' ∧ swapCase 'p' = 'P' := by
  decide

theorem isClockChar_not_needed (c : Char) (h : isClockChar c = true) :
    mathNeeds c = false ∧ fnNeeds c = false := by
  obtain ⟨h1, h2, h3, h4, h5, h6, h7, h8, h9, _⟩ := swapCase_letters
  by_contra hcon
  have hor : mathNeeds c = true ∨ fnNeeds c = true := by
    cases hm : mathNeeds c <;> cases hf : fnNeeds c <;> simp_all
  simp only [mathNeeds, fnNeeds, isMathOp, isNameStart, ciChar, h1, h2, h3, h4, h5, h6, h7, h8,
    h9, Bool.or_eq_true, beq_iff_eq] at hor
  simp only [char_eq_iff_toNat, Char.reduceToNat] at hor
  simp only [isClockChar, isJsSpace, isDigit, Bool.or_eq_true, beq_iff_eq, Bool.and_eq_true,
    decide_eq_true_eq, char_eq_iff_toNat, Char.reduceToNat] at h
  omega

/-! ## Lower-casing and the keyword test -/

theorem includes_iff (s kw : Str) :
    includes s kw = true ↔ ∃ pre suf, s = pre ++ kw ++ suf := by
  unfold includes
  rw [List.any_eq_true]
  constructor
  · rintro ⟨t, ht, hp⟩
    obtain ⟨pre, hpre⟩ := (List.mem_tails t s).1 ht
    obtain ⟨suf, hsuf⟩ := List.isPrefixOf_iff_prefix.1 hp
    exact ⟨pre, suf, by rw [← hpre, ← hsuf, List.append_assoc]⟩
  · rintro ⟨pre, suf, h⟩
    refine ⟨kw ++ suf, (List.mem_tails _ _).2 ⟨pre, by rw [h, List.append_assoc]⟩, ?_⟩
    exact List.isPrefixOf_iff_prefix.2 ⟨suf, rfl⟩

theorem toLowerCase_cons (c : Char) (m : Str) :
    toLowerCase (c :: m) = lowerChar c ++ toLowerCase m := by
  simp [toLowerCase]

theorem toLowerCase_append (a b : Str) :
    toLowerCase (a ++ b) = toLowerCase a ++ toLowerCase b := by
  simp [toLowerCase]

theorem lowerChar_shape (c : Char) :
    (∃ u, lowerChar c = [u]) ∨ lowerChar c = ['i', Char.ofNat 0x307] := by
  unfold lowerChar
  split_ifs
  · exact Or.inl ⟨_, rfl⟩
  · exact Or.inr rfl
  · exact Or.inl ⟨_, rfl⟩
  · exact Or.inl ⟨_, rfl⟩

theorem lowerChar_head (P : Char) (hP : P = 'e' ∨ P = 'x' ∨ P = 'p') (c : Char)
    (tl rest : Str) (h : lowerChar c ++ tl = P :: rest) : ciChar P c = true ∧ tl = rest := by
  obtain ⟨_, _, _, _, h5, _, _, h8, _, h10⟩ := swapCase_letters
  unfold lowerChar at h
  split_ifs at h with h1 h2 h3
  · simp only [List.singleton_append, List.cons.injEq] at h
    refine ⟨?_, h.2⟩
    have hn : P.toNat = c.toNat + 32 := by
      rw [← h.1, toNat_ofNat_of_lt _ (by omega)]
    rcases hP with rfl | rfl | rfl
    · have : c = 'E' := by rw [char_eq_iff_toNat]; simp only [Char.reduceToNat] at hn ⊢; omega
      simp [ciChar, h5, this]
    · have : c = 'X' := by rw [char_eq_iff_toNat]; simp only [Char.reduceToNat] at hn ⊢; omega
      simp [ciChar, h8, this]
    · have : c = 'P' := by rw [char_eq_iff_toNat]; simp only [Char.reduceToNat] at hn ⊢; omega
      simp [ciChar, h10, this]
  · simp only [List.cons_append, List.cons.injEq] at h
    rcases hP with rfl | rfl | rfl <;> exact absurd h.1 (by decide)
  · simp only [List.cons_append, List.cons.injEq] at h
    rcases hP with rfl | rfl | rfl <;> exact absurd h.1 (by decide)
  · simp only [List.singleton_append, List.cons.injEq] at h
    exact ⟨by simp [ciChar, h.1], h.2⟩

theorem toLowerCase_head (P : Char) (hP : P = 'e' ∨ P = 'x' ∨ P = 'p') (m rest : Str)
    (h : toLowerCase m = P :: rest) :
    ∃ c m1, m = c :: m1 ∧ ciChar P c = true ∧ toLowerCase m1 = rest := by
  cases m with
  | nil => simp [toLowerCase] at h
  | cons c m1 =>
    rw [toLowerCase_cons] at h
    obtain ⟨h1, h2⟩ := lowerChar_head P hP c _ _ h
    exact ⟨c, m1, rfl, h1, h2⟩

theorem toLowerCase_exp (m : Str) :
    ∀ pre suf : Str, toLowerCase m = pre ++ 'e' :: 'x' :: 'p' :: suf →
      ∃ m1 a b c m2, m = m1 ++ a :: b :: c :: m2 ∧
        ciChar 'e' a = true ∧ ciChar 'x' b = true ∧ ciChar 'p' c = true := by
  induction m with
  | nil => intro pre suf h; simp [toLowerCase] at h
  | cons d m ih =>
    intro pre suf h
    cases pre with
    | nil =>
      obtain ⟨a, ma, hma, ha, hra⟩ := toLowerCase_head 'e' (Or.inl rfl) (d :: m) _ h
      obtain ⟨b, mb, hmb, hb, hrb⟩ := toLowerCase_head 'x' (Or.inr (Or.inl rfl)) ma _ hra
      obtain ⟨c, mc, hmc, hc, _⟩ := toLowerCase_head 'p' (Or.inr (Or.inr rfl)) mb _ hrb
      exact ⟨[], a, b, c, mc, by rw [hma, hmb, hmc]; rfl, ha, hb, hc⟩
    | cons q pre =>
      rw [toLowerCase_cons] at h
      rcases lowerChar_shape d with ⟨u, hu⟩ | hu
      · rw [hu] at h
        simp only [List.singleton_append, List.cons_append, List.cons.injEq] at h
        obtain ⟨m1, a, b, c, m2, hm, habc⟩ := ih pre suf h.2
        exact ⟨d :: m1, a, b, c, m2, by rw [hm]; rfl, habc⟩
      · rw [hu] at h
        cases pre with
        | nil =>
          simp only [List.cons_append, List.nil_append, List.cons.injEq] at h
          exact absurd h.2.1 (by decide)
        | cons q2 pre =>
          simp only [List.cons_append, List.cons.injEq, List.nil_append] at h
          obtain ⟨m1, a, b, c, m2, hm, habc⟩ := ih pre suf h.2.2
          exact ⟨d :: m1, a, b, c, m2, by rw [hm]; rfl, habc⟩

theorem matchFrom_opt_false (n : Nat) (s : Str) :
    matchFrom n (.opt (fun _ => false)) s = [s] := by
  cases s <;> simp [matchFrom]

theorem alt_ne_nil_left (n : Nat) (a b : Regex) (t : Str) (h : matchFrom n a t ≠ []) :
    matchFrom n (.alt a b) t ≠ [] := by
  simp [matchFrom, h]

theorem alt_ne_nil_right (n : Nat) (a b : Regex) (t : Str) (h : matchFrom n b t ≠ []) :
    matchFrom n (.alt a b) t ≠ [] := by
  simp [matchFrom, h]

theorem functionName_test_of_exp (m m1 m2 : Str) (a b c : Char) (hm : m = m1 ++ a :: b :: c :: m2)
    (ha : ciChar 'e' a = true) (hb : ciChar 'x' b = true) (hc : ciChar 'p' c = true) :
    functionNamePattern.test m = true := by
  unfold Regex.test
  rw [List.any_eq_true]
  refine ⟨a :: b :: c :: m2, (List.mem_tails _ _).2 ⟨m1, hm.symm⟩, ?_⟩
  have hexp : matchFrom m.length (wordI "exp".toList) (a :: b :: c :: m2) ≠ [] := by
    have : matchFrom m.length (wordI "exp".toList) (a :: b :: c :: m2) = [m2] := by
      show matchFrom m.length (wordI ['e', 'x', 'p']) (a :: b :: c :: m2) = [m2]
      simp only [wordI, litI, matchFrom_seq_chr_cons, ha, hb, hc, if_true, matchFrom_opt_false]
    rw [this]
    simp
  have hall : matchFrom m.length functionNamePattern (a :: b :: c :: m2) ≠ [] := by
    unfold functionNamePattern
    exact alt_ne_nil_right _ _ _ _ (alt_ne_nil_right _ _ _ _ (alt_ne_nil_right _ _ _ _
      (alt_ne_nil_right _ _ _ _ (alt_ne_nil_right _ _ _ _ (alt_ne_nil_right _ _ _ _
      (alt_ne_nil_left _ _ _ _ hexp))))))
  simpa [List.isEmpty_iff] using hall

theorem isMathExpression_of_explain (message : Str)
    (h : includes (toLowerCase message) "explain".toList = true) :
    isMathExpression message = true := by
  obtain ⟨pre, suf, hps⟩ := (includes_iff _ _).1 h
  have h2 : toLowerCase message = pre ++ 'e' :: 'x' :: 'p' :: ("lain".toList ++ suf) := by
    rw [hps]; simp
  obtain ⟨m1, a, b, c, m2, hm, ha, hb, hc⟩ := toLowerCase_exp message pre _ h2
  unfold isMathExpression mathPatterns
  simp only [List.any_cons, List.any_nil, Bool.or_false, Bool.or_eq_true]
  exact Or.inr (Or.inl (functionName_test_of_exp message m1 m2 a b c hm ha hb hc))

/-! ## Claims on the conversation store -/

/-- C1: for every collection (whatever the stored log of the user, an absent record
included) and every pair, `storeConversation` leaves a record for the user whose log is the
old log followed by the new entry with only the oldest entries dropped: it has
`min 50 (old length + 1)` entries, hence at most 50, its last entry is the pair just written,
and from an absent record the log is exactly the new entry. -/
theorem storeConversation_keeps_last_50 (db : Db) (ts : Str) (userId : UserId) (um ar : Str) :
    (∃ log dropped : List ConversationEntry,
      storeConversation db ts userId um ar userId = some ⟨some log⟩ ∧
      logOf db userId ++ [⟨ts, um, ar⟩] = dropped ++ log ∧
      log = lastN 50 (logOf db userId ++ [⟨ts, um, ar⟩]) ∧
      log.length = min 50 ((logOf db userId).length + 1) ∧
      log.length ≤ 50 ∧
      log.getLast? = some ⟨ts, um, ar⟩) ∧
    storeConversation (fun u => if u = userId then none else db u) ts userId um ar userId =
      some ⟨some [⟨ts, um, ar⟩]⟩ := by
  generalize hall : logOf db userId ++ [(⟨ts, um, ar⟩ : ConversationEntry)] = all
  have hlen : all.length = (logOf db userId).length + 1 := by rw [← hall]; simp
  constructor
  · refine ⟨lastN 50 all, all.take (all.length - 50), ?_, ?_, ?_, ?_, ?_, ?_⟩
    · rw [storeConversation_get, logOf_storeConversation, hall]
    · unfold lastN; rw [List.take_append_drop]
    · rfl
    · rw [lastN_length, hlen]
    · rw [lastN_length]; omega
    · unfold lastN
      rw [List.getLast?_drop, ← hall]
      simp
      omega
  · simp [storeConversation, updateOnePush, pushSlice]

/-- C2: after `n >= 1` appends for a user that had no record, `getConversationHistory` with
a limit of at least 1 returns the user-then-assistant pairs of the last `min limit (min n 50)`
appends, in the order of the appends. After 55 appends and with limit 100 these are the 100
messages of the appends 6 to 55; and straight after any append, limit 1 gives the two
messages just written. -/
theorem getConversationHistory_after_appends (db : Db) (userId : UserId) (as : List Append)
    (limit : Nat) (hdb : db userId = none) (has : as ≠ []) (hlimit : 1 ≤ limit) :
    getConversationHistory (storeAll db userId as) userId limit =
      (lastN (min limit (min as.length 50)) as).flatMap Append.messages ∧
    (as.length = 55 →
      getConversationHistory (storeAll db userId as) userId 100 =
        (as.drop 5).flatMap Append.messages ∧
      (getConversationHistory (storeAll db userId as) userId 100).length = 100) ∧
    (∀ (db1 : Db) (a : Append),
      getConversationHistory (storeConversation db1 a.timestamp userId a.userMessage
        a.aiResponse) userId 1 = a.messages) := by
  have key : ∀ l : Nat, 1 ≤ l →
      getConversationHistory (storeAll db userId as) userId l =
        (lastN (min l (min as.length 50)) as).flatMap Append.messages := by
    intro l hl
    obtain ⟨h1, h2⟩ := logOf_storeAll as db userId has
    rw [getConversationHistory_of_log _ _ _ _ h2, jsSlice_neg l hl, h1]
    have h0 : logOf db userId = [] := by simp [logOf, hdb]
    rw [h0, List.nil_append, lastN_lastN, ← formatHistory_map]
    congr 1
    unfold lastN
    rw [List.map_drop, List.length_map]
    congr 1
    omega
  refine ⟨key limit hlimit, ?_, ?_⟩
  · intro h55
    have h := key 100 (by omega)
    have hmin : min 100 (min as.length 50) = 50 := by omega
    rw [hmin] at h
    have hd : lastN 50 as = as.drop 5 := by unfold lastN; rw [h55]
    rw [hd] at h
    refine ⟨h, ?_⟩
    rw [h, ← formatHistory_map, formatHistory_length]
    simp [h55]
  · intro db1 a
    rw [getConversationHistory_of_log _ _ _ _ (storeConversation_get db1 _ userId _ _),
      jsSlice_neg 1 (by omega), logOf_storeConversation, lastN_lastN]
    have : lastN (min 1 50) (logOf db1 userId ++ [⟨a.timestamp, a.userMessage, a.aiResponse⟩])
        = [⟨a.timestamp, a.userMessage, a.aiResponse⟩] := by
      unfold lastN; simp
    rw [this]
    rfl

/-- Witness of C2: three appends to the empty collection, read back with limit 2. -/
theorem getConversationHistory_after_appends_witness :
    getConversationHistory (storeAll emptyDb 7 (sampleAppends 3)) 7 2 =
      (lastN (min 2 (min (sampleAppends 3).length 50)) (sampleAppends 3)).flatMap
        Append.messages :=
  (getConversationHistory_after_appends emptyDb 7 (sampleAppends 3) 2 rfl (by decide)
    (by decide)).1

theorem getConversationHistory_limit_pos (db : Db) (userId : UserId) (limit : Nat)
    (hlimit : 1 ≤ limit) :
    getConversationHistory db userId limit = formatHistory (lastN limit (logOf db userId)) ∧
    (getConversationHistory db userId limit).length =
      2 * min limit (logOf db userId).length := by
  have h : getConversationHistory db userId limit =
      formatHistory (lastN limit (logOf db userId)) := by
    unfold getConversationHistory get_user logOf
    cases hu : db userId with
    | none => simp [lastN, formatHistory]
    | some user =>
      cases hh : user.conversation_history with
      | none => simp [hh, lastN, formatHistory]
      | some log => simp [hh, jsSlice_neg limit hlimit]
  rw [h, formatHistory_length, lastN_length]
  exact ⟨rfl, rfl⟩

/-- C3 at limit 0: with one stored entry, `getConversationHistory(userId, 0)` returns the two
messages of that entry, not the empty sequence: `slice(-0)` is `slice(0)`, the whole log. -/
theorem getConversationHistory_limit_zero :
    getConversationHistory (storeAll emptyDb 7 (sampleAppends 1)) 7 0 =
      [{ role := "user".toList, content := "q".toList },
       { role := "assistant".toList, content := "r".toList }] ∧
    (getConversationHistory (storeAll emptyDb 7 (sampleAppends 1)) 7 0).length ≠
      2 * min 0 (logOf (storeAll emptyDb 7 (sampleAppends 1)) 7).length := by
  decide

/-! ## Claims on the completion request and the fallback -/

theorem requestMessages_eq (systemPrompt userMessage : Str) (history : List RoleMessage) :
    requestMessages systemPrompt userMessage history =
      systemMessage systemPrompt :: (lastN 10 history ++ [userMessageOf userMessage]) := by
  unfold requestMessages
  by_cases h : history.length > 0
  · simp [h, jsSlice, lastN, systemMessage, userMessageOf]
  · have : history = [] := by
      cases history with
      | nil => rfl
      | cons x xs => simp at h
    subst this
    simp [lastN, systemMessage, userMessageOf]

/-- C4 as stated fails: with the 20-message transcript that `getConversationHistory(userId,
10)` returns for ten stored exchanges, the request of `getAIResponse` has 12 messages, not 22,
and it is not the system message, the 20 messages and the user message. -/
theorem requestMessages_transcript_counterexample :
    (getConversationHistory (storeAll emptyDb 7 (sampleAppends 10)) 7 10).length = 20 ∧
    (requestMessages "S".toList "u".toList
      (getConversationHistory (storeAll emptyDb 7 (sampleAppends 10)) 7 10)).length = 12 ∧
    requestMessages "S".toList "u".toList
      (getConversationHistory (storeAll emptyDb 7 (sampleAppends 10)) 7 10) ≠
      systemMessage "S".toList ::
        (lastN 20 (getConversationHistory (storeAll emptyDb 7 (sampleAppends 10)) 7 10) ++
          [userMessageOf "u".toList]) := by
  decide

/-- C4, amended: the message list of `getAIResponse` is the system instruction, then the last
`min len 10` role-tagged messages of the history in order (five exchanges at most), then the
new user message; it has `min len 10 + 2` messages. For the transcript that
`getConversationHistory(userId, 10)` returns from a log of at least ten entries, the ten
messages carried are those of the last five entries and the request has 12 messages. -/
theorem requestMessages_last_ten (systemPrompt userMessage : Str)
    (history : List RoleMessage) :
    requestMessages systemPrompt userMessage history =
      systemMessage systemPrompt :: (lastN 10 history ++ [userMessageOf userMessage]) ∧
    (requestMessages systemPrompt userMessage history).length = min history.length 10 + 2 ∧
    (∀ (db : Db) (userId : UserId) (log : List ConversationEntry),
      db userId = some ⟨some log⟩ → 10 ≤ log.length →
      requestMessages systemPrompt userMessage (getConversationHistory db userId 10) =
        systemMessage systemPrompt ::
          (formatHistory (lastN 5 log) ++ [userMessageOf userMessage]) ∧
      (requestMessages systemPrompt userMessage (getConversationHistory db userId 10)).length
        = 12) := by
  refine ⟨requestMessages_eq _ _ _, ?_, ?_⟩
  · rw [requestMessages_eq]
    simp [lastN_length]
    omega
  · intro db userId log hlog hlen
    have h3 : requestMessages systemPrompt userMessage (getConversationHistory db userId 10) =
        systemMessage systemPrompt ::
          (formatHistory (lastN 5 log) ++ [userMessageOf userMessage]) := by
      rw [requestMessages_eq, getConversationHistory_of_log db userId 10 log hlog,
        jsSlice_neg 10 (by omega)]
      congr 2
      have hsplit : lastN 10 log = (lastN 10 log).take 5 ++ lastN 5 log := by
        have h5 : lastN 5 log = lastN 5 (lastN 10 log) := by rw [lastN_lastN]; rfl
        rw [h5]
        have : (lastN 10 log).length = 10 := by rw [lastN_length]; omega
        unfold lastN at this ⊢
        rw [this]
        exact (List.take_append_drop 5 _).symm
      rw [hsplit, formatHistory_append]
      have hl : 10 ≤ (formatHistory (lastN 5 log)).length := by
        rw [formatHistory_length, lastN_length]; omega
      rw [lastN_append_of_le 10 _ _ hl]
      apply lastN_of_length_le
      rw [formatHistory_length, lastN_length]; omega
    refine ⟨h3, ?_⟩
    rw [h3]
    simp [formatHistory_length, lastN_length]
    omega

/-- Witness of C4, amended: the transcript of ten stored sample exchanges. -/
theorem requestMessages_last_ten_witness :
    (requestMessages "S".toList "u".toList
      (getConversationHistory (storeAll emptyDb 7 (sampleAppends 10)) 7 10)).length = 12 :=
  ((requestMessages_last_ten "S".toList "u".toList []).2.2
    (storeAll emptyDb 7 (sampleAppends 10)) 7
    (logOf (storeAll emptyDb 7 (sampleAppends 10)) 7)
    (logOf_storeAll (sampleAppends 10) emptyDb 7 (by decide)).2 (by decide)).2

/-- C5 as stated fails: when the API answers "what is 2+2" with status 500, the store is
unchanged, but the reply is the default fallback, which is not the math fallback. -/
theorem getAIResponse_failure_counterexample :
    getAIResponse "S".toList (fun _ => .response 500 none) emptyDb [] "what is 2+2".toList 7 []
      = (defaultFallback, emptyDb) ∧
    (getAIResponse "S".toList (fun _ => .response 500 none) emptyDb [] "what is 2+2".toList 7
      []).1 ≠ mathFallback := by
  refine ⟨rfl, ?_⟩
  show defaultFallback ≠ mathFallback
  decide

/-- C5, amended: when the completion API answers the request for "what is 2+2" with a status
other than 200, `getAIResponse` returns the default fallback (the message holds none of the
keywords of the five keyword branches) and leaves the user collection as it was. -/
theorem getAIResponse_failure_default (systemPrompt : Str)
    (api : List RoleMessage → ApiOutcome) (db : Db) (ts : Str) (userId : UserId)
    (history : List RoleMessage) (status : Nat) (content : Option Str)
    (hapi : api (requestMessages systemPrompt "what is 2+2".toList history) =
      .response status content)
    (hstatus : status ≠ 200) :
    getAIResponse systemPrompt api db ts "what is 2+2".toList userId history =
      (defaultFallback, db) := by
  simp only [getAIResponse, hapi, hstatus, if_false]
  rfl

/-- Witness of C5, amended: status 500 on the empty collection. -/
theorem getAIResponse_failure_default_witness :
    getAIResponse "S".toList (fun _ => .response 500 (some "4".toList)) emptyDb []
      "what is 2+2".toList 7 [] = (defaultFallback, emptyDb) :=
  getAIResponse_failure_default "S".toList (fun _ => .response 500 (some "4".toList)) emptyDb []
    7 [] 500 (some "4".toList) rfl (by decide)

/-! ## Claims on the intent classifier -/

/-- C6 at "ok see you " (three words and a final blank): none of the math, function and
clock-time predicates accepts it and it holds no keyword and no question mark, yet
`isAIConversation` is true, because `split(/\s+/)` gives four pieces, the last one empty. -/
theorem isAIConversation_trailing_blank :
    isAIConversation "ok see you ".toList = true ∧
    claimedConversation "ok see you ".toList = false ∧
    wordCount "ok see you ".toList = 3 ∧
    splitWhitespace "ok see you ".toList = ["ok".toList, "see".toList, "you".toList, []] ∧
    isMathExpression "ok see you ".toList = false ∧
    isFunctionExpression "ok see you ".toList = false ∧
    isAlarmTime "ok see you ".toList = false ∧
    conversationIndicators.any (fun ind => includes (toLowerCase "ok see you ".toList) ind)
      = false := by
  decide

/-- C7: `isAlarmTime(text)` is true exactly when the trimmed text is a clock time, an hour
of one or two digits with value 0 to 23, a colon and a minute of two digits with value 0 to
59, and nothing else; this is the test of the pattern on the trimmed text, so every trimmed
string that the pattern matches is accepted; "24:00", "9:5" and "12:60" are rejected, and
"00:00", "9:05" and " 23:59 " are accepted. -/
theorem isAlarmTime_eq_isClockText (text : Str) :
    isAlarmTime text = isClockText (trim text) ∧
    isAlarmTime text = timePattern.test (trim text) ∧
    isAlarmTime "24:00".toList = false ∧
    isAlarmTime "9:5".toList = false ∧
    isAlarmTime "12:60".toList = false ∧
    isAlarmTime "00:00".toList = true ∧
    isAlarmTime "9:05".toList = true ∧
    isAlarmTime " 23:59 ".toList = true := by
  refine ⟨timePattern_test (trim text), rfl, ?_, ?_, ?_, ?_, ?_, ?_⟩ <;> decide

/-- C8 as stated fails: "X2" holds no small `x`, no `f(x) =` and no `y =`, so the test as
worded rejects it, but `isFunctionExpression` accepts it, all four patterns having the `i`
flag. -/
theorem isFunctionExpression_capital_x_counterexample :
    isFunctionExpression "X2".toList = true ∧ claimedFunctionExpression "X2".toList = false := by
  decide

/-- C8, amended: `isFunctionExpression(text)` is true exactly when text contains, each
case-insensitively, `f(x)` followed by optional white space and `=`, or `y` followed by
optional white space and `=`, or `x`, then an optional `^`, then a digit, or `x` immediately
followed by one of `+ - * /`. It is true of "f(x) = x^2 + 1", false of "3+4", and false of
every text without any of the letters f, x, y in either case. -/
theorem isFunctionExpression_eq_amendedFunctionExpression (text : Str) :
    isFunctionExpression text = amendedFunctionExpression text ∧
    isFunctionExpression "f(x) = x^2 + 1".toList = true ∧
    isFunctionExpression "3+4".toList = false ∧
    ((∀ c ∈ text, (ciChar 'f' c || ciChar 'x' c || ciChar 'y' c) = false) →
      isFunctionExpression text = false) := by
  refine ⟨functionPatterns_test_eq text, by decide, by decide, ?_⟩
  intro hletters
  exact isFunctionExpression_eq_false text hletters

/-- Witness of C8, amended: "3+4" has none of the letters f, x, y. -/
theorem isFunctionExpression_eq_amendedFunctionExpression_witness :
    isFunctionExpression "3+4".toList = false :=
  (isFunctionExpression_eq_amendedFunctionExpression "3+4".toList).2.2.2 (by decide)

/-- C9: a text that `isAlarmTime` accepts is accepted by neither `isMathExpression` nor
`isFunctionExpression`, so `isAIConversation` is false of it and the three predicates can be
consulted in the order of the code or with the clock time first, with the same result. -/
theorem isAlarmTime_excludes_math_and_function (text : Str) (h : isAlarmTime text = true) :
    isMathExpression text = false ∧
    isFunctionExpression text = false ∧
    isAIConversation text = false ∧
    (isMathExpression text || isFunctionExpression text || isAlarmTime text) =
      (isAlarmTime text || isMathExpression text || isFunctionExpression text) := by
  have hm : isMathExpression text = false :=
    isMathExpression_eq_false text
      (fun c hc => (isClockChar_not_needed c (isAlarmTime_chars text h c hc)).1)
  have hf : isFunctionExpression text = false :=
    isFunctionExpression_eq_false text
      (fun c hc => (isClockChar_not_needed c (isAlarmTime_chars text h c hc)).2)
  refine ⟨hm, hf, ?_, ?_⟩
  · simp [isAIConversation, h]
  · rw [hm, hf, h]; rfl

/-- Witness of C9: the clock time " 9:05 ", with blanks around it. -/
theorem isAlarmTime_excludes_math_and_function_witness :
    isAlarmTime " 9:05 ".toList = true ∧
    isMathExpression " 9:05 ".toList = false ∧
    isFunctionExpression " 9:05 ".toList = false :=
  ⟨by decide,
    (isAlarmTime_excludes_math_and_function " 9:05 ".toList (by decide)).1,
    (isAlarmTime_excludes_math_and_function " 9:05 ".toList (by decide)).2.1⟩

/-- C10: whenever the keyword test of `isAIConversation` finds "explain" in the lower-cased
message, and so whenever the message contains "explain" in any letter case,
`isMathExpression` is true of the message (the function-name pattern matches the letters
"exp") and `isAIConversation` is false; so it is for "explain" and for
"can you explain this to me please?". -/
theorem explain_never_conversational (message : Str)
    (h : includes (toLowerCase message) "explain".toList = true ∨
      ∃ pre w suf, message = pre ++ w ++ suf ∧ toLowerCase w = "explain".toList) :
    isMathExpression message = true ∧
    isAIConversation message = false ∧
    isAIConversation "explain".toList = false ∧
    isAIConversation "can you explain this to me please?".toList = false := by
  have hinc : includes (toLowerCase message) "explain".toList = true := by
    rcases h with h | ⟨pre, w, suf, hm, hw⟩
    · exact h
    · rw [includes_iff]
      exact ⟨toLowerCase pre, toLowerCase suf, by
        rw [hm, toLowerCase_append, toLowerCase_append, hw]⟩
  have hmath := isMathExpression_of_explain message hinc
  refine ⟨hmath, ?_, by decide, by decide⟩
  simp [isAIConversation, hmath]

/-- Witness of C10: a message with the keyword in capitals. -/
theorem explain_never_conversational_witness :
    includes (toLowerCase "Please EXPLAIN it".toList) "explain".toList = true ∧
    isMathExpression "Please EXPLAIN it".toList = true ∧
    isAIConversation "Please EXPLAIN it".toList = false :=
  ⟨by decide,
    (explain_never_conversational "Please EXPLAIN it".toList (Or.inl (by decide))).1,
    (explain_never_conversational "Please EXPLAIN it".toList (Or.inl (by decide))).2.1⟩

end MathBot
